import Mathlib

/-!
Shallow embedding of the scout-postman-monitor core: the identity resolver
(`GenerateCompositeKey`), the directory scanner (`scanSubdirectory`), the
results store aggregation (`GetLatestResults` and friends), the HTTP
results handler (`handleResults`), the Newman executor decision logic
(`Execute`) and the scheduler (`executeCollection`, `runOnce`, `Start`).
Go strings are modelled as Lean `String` with explicit list-based
primitives mirroring the `strings` package functions used by the source.
Timestamps are modelled as integers, database rows as lists.
-/

namespace Scout

/-- Model of Go `strings.ToLower` (ASCII case folding). -/
def strToLower (s : String) : String :=
  ⟨s.data.map Char.toLower⟩

/-- Model of Go `strings.HasSuffix`. -/
def strHasSuffix (s suf : String) : Bool :=
  decide (suf.data <:+ s.data)

/-- Model of Go `strings.Contains` (substring containment). -/
def strContains (s sub : String) : Bool :=
  decide (sub.data <:+: s.data)

/-- Lexicographic less-or-equal on char lists by code point, structural
so that the kernel can evaluate it; realizes the SQL ORDER BY string
comparison under a fixed collation. -/
def strLeList : List Char → List Char → Bool
  | [], _ => true
  | _ :: _, [] => false
  | a :: as, b :: bs =>
    if a.toNat < b.toNat then true
    else if b.toNat < a.toNat then false
    else strLeList as bs

/-- Lexicographic less-or-equal on strings. -/
def strLe (s t : String) : Bool := strLeList s.data t.data

/-- Strict lexicographic order on strings. -/
def strLt (s t : String) : Bool := strLe s t && s != t

/-- Model of Go `strings.TrimSuffix`: removes `suf` once if `s` ends with it
(case-sensitively), otherwise returns `s` unchanged. -/
def strTrimSuffix (s suf : String) : String :=
  if strHasSuffix s suf then ⟨s.data.take (s.data.length - suf.data.length)⟩ else s

/-- Model of Go `path/filepath.Base` for the paths this program builds
(a directory path joined with a slash-free file name): the last
slash-separated component. -/
def filepathBase (p : String) : String :=
  ⟨((p.data.splitOn '/').getLastD [])⟩

/-- The known collection-file suffix stripped by the identity resolver. -/
def collectionSuffix : String := ".postman_collection.json"

/-- The environment-file marker used by the scanner. -/
def environmentSuffix : String := ".postman_environment.json"

/-- Output of `GenerateCompositeKey`: the key and the three normalized
components, mirroring the Go function's four return values. -/
structure KeyParts where
  key : String
  dir : String
  env : String
  col : String
deriving Repr, DecidableEq

/-- The environment-name substitution of `GenerateCompositeKey`: the
placeholder string for a nil or empty environment pointer, the pointed-to
name otherwise. -/
def resolveEnvName (environmentName : Option String) : String :=
  match environmentName with
  | some e => if e ≠ "" then e else "env"
  | none => "env"

/-- Embedding of `scheduler.GenerateCompositeKey`: strip the collection
suffix from the file name, substitute the placeholder string when the
environment pointer is nil or empty, lowercase all three components and
join them with underscores. -/
def GenerateCompositeKey (directoryName : String) (environmentName : Option String)
    (collectionFileName : String) : KeyParts :=
  let collectionName := strTrimSuffix collectionFileName collectionSuffix
  let envName : String := resolveEnvName environmentName
  let dir := strToLower directoryName
  let env := strToLower envName
  let col := strToLower collectionName
  { key := dir ++ "_" ++ env ++ "_" ++ col, dir := dir, env := env, col := col }

/-! ## Watcher data model (internal/watcher) -/

/-- A discovered collection file (`watcher.CollectionFile`). -/
structure CollectionFile where
  name : String
  path : String
  fullPath : String
deriving Repr, DecidableEq

/-- A discovered Postman environment file (`watcher.EnvironmentFile`). -/
structure EnvironmentFile where
  name : String
  fileName : String
  path : String
  fullPath : String
deriving Repr, DecidableEq

/-- A scan-time execution unit (`watcher.CollectionGroup`). -/
structure CollectionGroup where
  directory : String
  environment : Option EnvironmentFile
  collections : List CollectionFile
deriving Repr, DecidableEq

/-- One entry of a directory listing, as returned by `os.ReadDir`. -/
structure DirEntry where
  name : String
  isDir : Bool
deriving Repr, DecidableEq

/-- Embedding of `watcher.parseEnvironmentFile` given the parse outcome of
the file content: `none` models a JSON parse failure, `some raw` the parsed
"name" field (`""` when the field is absent or empty, as Go unmarshalling
yields). On empty name the filename with the environment suffix stripped
is substituted. -/
def parseEnvironmentFile (parsed : Option String) (fullPath fileName relPath : String) :
    Option EnvironmentFile :=
  match parsed with
  | none => none
  | some raw =>
    let nm := if raw = "" then strTrimSuffix fileName environmentSuffix else raw
    some { name := nm, fileName := fileName, path := relPath, fullPath := fullPath }

/-- The classification loop of `watcher.scanSubdirectory`: walk the entries,
skip directories and files whose lowercased name does not end in ".json",
treat a file whose lowercased name contains the environment suffix as an
environment file (skipped when its JSON fails to parse), and every other
json file as a collection file. `parse` maps a file name to the outcome of
reading and JSON-parsing that file's "name" field. -/
def classifyStep (subdirPath subdirName : String) (parse : String → Option String)
    (acc : List EnvironmentFile × List CollectionFile) (entry : DirEntry) :
    List EnvironmentFile × List CollectionFile :=
  if entry.isDir then acc
  else if strHasSuffix (strToLower entry.name) ".json" then
    if strContains (strToLower entry.name) environmentSuffix then
      match parseEnvironmentFile (parse entry.name) (subdirPath ++ "/" ++ entry.name)
          entry.name (subdirName ++ "/" ++ entry.name) with
      | none => acc
      | some envFile => (acc.1 ++ [envFile], acc.2)
    else
      (acc.1, acc.2 ++ [{ name := entry.name
                          path := subdirName ++ "/" ++ entry.name
                          fullPath := subdirPath ++ "/" ++ entry.name }])
  else acc

def classifyEntries (subdirPath subdirName : String) (entries : List DirEntry)
    (parse : String → Option String) : List EnvironmentFile × List CollectionFile :=
  entries.foldl (classifyStep subdirPath subdirName parse) ([], [])

/-- Embedding of `watcher.scanSubdirectory`: classify the subdirectory's
entries, then emit one group per environment file (each carrying the whole
collection list), or a single environment-less group when there are
collection files but no environment files, or nothing at all. -/
def scanSubdirectory (subdirPath subdirName : String) (entries : List DirEntry)
    (parse : String → Option String) : List CollectionGroup :=
  if (classifyEntries subdirPath subdirName entries parse).1 ≠ [] then
    (classifyEntries subdirPath subdirName entries parse).1.map (fun envFile =>
      { directory := subdirName
        environment := some envFile
        collections := (classifyEntries subdirPath subdirName entries parse).2 })
  else if (classifyEntries subdirPath subdirName entries parse).2 ≠ [] then
    [{ directory := subdirName
       environment := none
       collections := (classifyEntries subdirPath subdirName entries parse).2 }]
  else
    []

/-! ## Storage data model (internal/storage/models.go) -/

/-- Persisted collection row (`storage.Collection`); audit timestamps are
omitted as no claim concerns them. -/
structure Collection where
  id : Nat
  name : String
  filePath : String
  compositeKey : String
  directoryName : String
  environmentName : String
  collectionName : String
deriving Repr, DecidableEq

/-- Persisted execution row (`storage.TestExecution`). -/
structure TestExecution where
  id : Nat
  collectionId : Nat
  collectionName : String
  startedAt : Int
  completedAt : Int
  durationMs : Int
  totalTests : Int
  passedTests : Int
  failedTests : Int
  error : Option String
deriving Repr, DecidableEq

/-- Persisted assertion row (`storage.TestResult`). -/
structure TestResult where
  id : Nat
  executionId : Nat
  testName : String
  executionName : Option String
  url : Option String
  method : Option String
  status : String
  statusCode : Option Int
  responseTimeMs : Option Int
  passed : Bool
  error : Option String
deriving Repr, DecidableEq

/-- View-model environment metadata (`storage.EnvironmentInfo`). -/
structure EnvironmentInfo where
  name : String
  fileName : String
  path : String
deriving Repr, DecidableEq

/-- View-model per-collection result (`storage.CollectionResult`). -/
structure CollectionResult where
  collection : Collection
  execution : Option TestExecution
  lastSuccessExecution : Option TestExecution
  results : List TestResult
deriving Repr, DecidableEq

/-- View-model group (`storage.EnvironmentGroup`). -/
structure EnvironmentGroup where
  environment : Option EnvironmentInfo
  directory : String
  collections : List CollectionResult
deriving Repr, DecidableEq

/-- View-model response (`storage.LatestResults`); the freshness timestamp
is an integer clock value. -/
structure LatestResults where
  environmentGroups : List EnvironmentGroup
  updatedAt : Int
deriving Repr, DecidableEq

/-- The persisted database state: the three tables as row lists in their
physical order. -/
structure DB where
  collections : List Collection
  executions : List TestExecution
  results : List TestResult
deriving Repr, DecidableEq

/-! ## Storage queries (internal/storage, part of the Results Aggregator) -/

/-- First-appearance deduplication: the order in which distinct values
first occur in a row stream. -/
def firstDedup {α : Type} [DecidableEq α] (l : List α) : List α :=
  l.foldl (fun acc x => if x ∈ acc then acc else acc ++ [x]) []

/-- Stable insertion of `x` into a list sorted by `le`: `x` lands after
every element `y` with `le y x`. -/
def insertLe {α : Type} (le : α → α → Bool) (x : α) : List α → List α
  | [] => [x]
  | y :: ys => if le y x then y :: insertLe le x ys else x :: y :: ys

/-- Stable sort by the total comparison `le` (insertion sort): models a
SQL ORDER BY under one legal realization in which rows whose sort keys
compare equal keep their physical order. -/
def sortBy {α : Type} (le : α → α → Bool) (l : List α) : List α :=
  l.foldl (fun acc x => insertLe le x acc) []

/-- One step of scanning for the row with the greatest `startedAt`; kept
as its own definition for the induction proofs below. -/
def pickStep (acc : Option TestExecution) (e : TestExecution) : Option TestExecution :=
  match acc with
  | none => some e
  | some a => if e.startedAt > a.startedAt then some e else some a

/-- First row with the greatest `startedAt` among `rows`: the head of the
rows sorted by started_at descending under a stable realization of the
SQL ordering (ties between equal timestamps are left in physical row
order, one legal behavior of an ORDER BY with no further sort key). -/
def pickLatest (rows : List TestExecution) : Option TestExecution :=
  rows.foldl pickStep none

/-- Embedding of the SQL view `latest_test_executions`
(SELECT DISTINCT ON (collection_id) * FROM test_executions
ORDER BY collection_id, started_at DESC): one row per collection id,
ordered by collection id, each the row of that collection with the
greatest started_at; the choice among rows sharing the greatest
started_at is not fixed by the query and is realized here as the
earliest such row in physical order. -/
def latest_test_executions (rows : List TestExecution) : List TestExecution :=
  (sortBy (fun a b => a ≤ b) (firstDedup (rows.map (fun e => e.collectionId)))).filterMap
    (fun cid => pickLatest (rows.filter (fun e => e.collectionId == cid)))

/-- Embedding of `storage.GetLatestExecutions`: the latest-executions view
re-ordered by collection name. -/
def GetLatestExecutions (rows : List TestExecution) : List TestExecution :=
  sortBy (fun a b => strLe a.collectionName b.collectionName)
    (latest_test_executions rows)

/-- Embedding of `storage.GetLastSuccessfulExecution`: the most recent row
of the collection with no failed tests and at least one test. -/
def GetLastSuccessfulExecution (rows : List TestExecution) (collectionId : Nat) :
    Option TestExecution :=
  pickLatest (rows.filter (fun e =>
    e.collectionId == collectionId && e.failedTests == 0 && e.totalTests > 0))

/-- Embedding of `storage.GetTestResultsByExecutionID`: the execution's
result rows ordered by test name. -/
def GetTestResultsByExecutionID (results : List TestResult) (executionId : Nat) :
    List TestResult :=
  sortBy (fun a b => strLe a.testName b.testName)
    (results.filter (fun r => r.executionId == executionId))

/-- Embedding of `storage.GetAllCollections`: all collection rows ordered
lexicographically by directory name, environment name, collection name. -/
def GetAllCollections (cols : List Collection) : List Collection :=
  sortBy (fun a b =>
    strLt a.directoryName b.directoryName ||
      (a.directoryName == b.directoryName &&
        (strLt a.environmentName b.environmentName ||
          (a.environmentName == b.environmentName && strLe a.collectionName b.collectionName))))
    cols

/-- The grouping key of `storage.GetLatestResults` (the Go `groupKey`
struct). -/
structure GroupKey where
  directory : String
  envName : String
deriving Repr, DecidableEq

/-- The per-collection results `storage.GetLatestResults` builds before
grouping: for each row of the latest-executions view, the first matching
collection row (skipped when none matches), the last successful
execution, and the execution's test results. -/
def collectionResultsOf (db : DB) : List CollectionResult :=
  (GetLatestExecutions db.executions).filterMap (fun e =>
    match (GetAllCollections db.collections).find? (fun c => c.id == e.collectionId) with
    | none => none
    | some c => some
      { collection := c
        execution := some e
        lastSuccessExecution := GetLastSuccessfulExecution db.executions e.collectionId
        results := GetTestResultsByExecutionID db.results e.id })

/-- The keys of the Go `groupMap`, in insertion order. -/
def groupMapKeys (crs : List CollectionResult) : List GroupKey :=
  firstDedup (crs.map (fun cr =>
    { directory := cr.collection.directoryName, envName := cr.collection.environmentName }))

/-- One output group of `storage.GetLatestResults` for a grouping key:
environment info is attached unless the environment component is empty or
the reserved placeholder. -/
def mkEnvironmentGroup (k : GroupKey) (crs : List CollectionResult) : EnvironmentGroup :=
  { directory := k.directory
    environment :=
      if k.envName ≠ "" ∧ k.envName ≠ "env" then
        some { name := k.envName, fileName := k.envName ++ environmentSuffix, path := "" }
      else none
    collections := crs }

/-- Embedding of `storage.GetLatestResults` with the iteration order of
the Go map over grouping keys made explicit: Go randomizes map iteration
order, so the order in which groups are emitted is any permutation of the
map's key set. `now` models time.Now for the freshness timestamp. -/
def GetLatestResultsWith (db : DB) (now : Int) (keyOrder : List GroupKey) : LatestResults :=
  { environmentGroups := keyOrder.map (fun k =>
      mkEnvironmentGroup k ((collectionResultsOf db).filter (fun cr =>
        cr.collection.directoryName == k.directory &&
          cr.collection.environmentName == k.envName)))
    updatedAt := now }

/-- A key order is one the Go map can produce: a permutation of the
grouping keys actually inserted. -/
def validKeyOrder (db : DB) (keyOrder : List GroupKey) : Prop :=
  List.Perm keyOrder (groupMapKeys (collectionResultsOf db))

/-- Embedding of `storage.GetLatestResults` under one canonical legal iteration order
(insertion order of the map keys). -/
def GetLatestResults (db : DB) (now : Int) : LatestResults :=
  GetLatestResultsWith db now (groupMapKeys (collectionResultsOf db))

/-! ## The /api/results handler (internal/api, handleResults) -/

/-- All CollectionResults of a LatestResults value in group order. -/
def allCollectionResults (lr : LatestResults) : List CollectionResult :=
  lr.environmentGroups.flatMap (·.collections)

/-- One step of the map-building loop of the handler, for a fixed looked
up key: a matching CollectionResult overwrites the accumulator. -/
def lookupStep (k : String) (acc : Option CollectionResult) (cr : CollectionResult) :
    Option CollectionResult :=
  if cr.collection.compositeKey == k then some cr else acc

/-- The `resultsByCompositeKey` Go map of the handler: iterate every
CollectionResult of the storage output and assign it under its composite
key, later assignments overwriting earlier ones; lookup returns the last
assignment. -/
def lookupByCompositeKey (crs : List CollectionResult) (k : String) :
    Option CollectionResult :=
  crs.foldl (lookupStep k) none

/-- The loop body of `api.handleResults` for one scanned collection:
match it against the stored results under the composite key computed from
the group directory, the environment file's RESOLVED NAME and the
collection file's base name; build a placeholder with no execution and no
results when nothing is stored under that key. -/
def handlerResultFor (stored : List CollectionResult) (group : CollectionGroup)
    (col : CollectionFile) : CollectionResult :=
  let envName : Option String := group.environment.map (·.name)
  let parts := GenerateCompositeKey group.directory envName (filepathBase col.fullPath)
  match lookupByCompositeKey stored parts.key with
  | some result => result
  | none =>
    { collection :=
        { id := 0
          name := col.name
          filePath := col.fullPath
          compositeKey := parts.key
          directoryName := parts.dir
          environmentName := parts.env
          collectionName := parts.col }
      execution := none
      lastSuccessExecution := none
      results := [] }

/-- Embedding of `api.handleResults` after a successful scan and storage
read: rebuild the environment groups from the scanned groups, matching
each scanned collection to a stored CollectionResult by composite key. -/
def handleResults (groups : List CollectionGroup) (db : DB) (now : Int) : LatestResults :=
  { environmentGroups := groups.map (fun group =>
      { directory := group.directory
        environment := group.environment.map (fun e =>
          { name := e.name, fileName := e.fileName, path := e.path })
        collections := group.collections.map
          (handlerResultFor (allCollectionResults (GetLatestResults db now)) group) })
    updatedAt := (GetLatestResults db now).updatedAt }

/-- The environment-name argument `scheduler.runOnce` threads to
`executeCollection`: derived from the environment FILE NAME with the
environment suffix stripped. -/
def dispatchEnvName (group : CollectionGroup) : Option String :=
  group.environment.map (fun e => strTrimSuffix e.fileName environmentSuffix)

/-- The composite key computed at dispatch time for a scanned pair
(`runOnce` feeding `executeCollection`). -/
def dispatchKey (group : CollectionGroup) (col : CollectionFile) : KeyParts :=
  GenerateCompositeKey group.directory (dispatchEnvName group) (filepathBase col.fullPath)

/-- The composite key computed at read time for the same scanned pair by
`api.handleResults`: the environment component comes from the environment
file's resolved `name` field. -/
def readKey (group : CollectionGroup) (col : CollectionFile) : KeyParts :=
  GenerateCompositeKey group.directory (group.environment.map (·.name)) (filepathBase col.fullPath)

/-! ## Newman executor (internal/executor) -/

/-- Go struct `executor.ExecutionSummary`. -/
structure ExecutionSummary where
  total : Int
  passed : Int
  failed : Int
deriving Repr, DecidableEq

/-- Go struct `executor.TestInfo`. -/
structure TestInfo where
  name : String
  passed : Bool
  error : Option String
  executionName : String
deriving Repr, DecidableEq

/-- Go struct `executor.ExecutionInfo`. -/
structure ExecutionInfo where
  name : String
  url : String
  method : String
  status : String
  statusCode : Option Int
  responseTime : Option Int
  error : Option String
deriving Repr, DecidableEq

/-- Go struct `executor.NewmanResult`. -/
structure NewmanResult where
  collectionName : String
  collectionPath : String
  timestamp : String
  summary : ExecutionSummary
  tests : List TestInfo
  executions : List ExecutionInfo
  totalDurationMs : Int
  error : Option String
deriving Repr, DecidableEq

/-- Embedding of `NewmanExecutor.Execute`'s result/error decision:
`parsed` models json.Unmarshal of the child process stdout (`none` is a
parse failure) and `runFailed` models a non-nil error from cmd.Run.
Returns the Go pair (result, err) with the error collapsed to a presence
flag: a parse failure yields no result and an error; a parseable result
is returned, with an error exactly when the process failed AND the result
carries a top-level error. -/
def Execute (parsed : Option NewmanResult) (runFailed : Bool) :
    Option NewmanResult × Bool :=
  match parsed with
  | none => (none, true)
  | some result =>
    if result.error.isSome && runFailed then (some result, true)
    else (some result, false)

/-! ## Scheduler (internal/scheduler) -/

/-- Embedding of `storage.UpsertCollection`: insert a new row with a fresh
serial id, or update the name of the existing row with the same composite
key; returns the new database and the resulting row. The store is
modelled as infallible, per the design's delegation of transaction
management to the database. -/
def UpsertCollection (db : DB)
    (name filePath compositeKey directoryName environmentName collectionName : String) :
    DB × Collection :=
  match db.collections.find? (fun c => c.compositeKey == compositeKey) with
  | some c =>
    let c2 := { c with name := name }
    let cols2 := db.collections.map (fun d => if d.compositeKey == compositeKey then c2 else d)
    ({ db with collections := cols2 }, c2)
  | none =>
    let newId := db.collections.foldl (fun m c => max m c.id) 0 + 1
    let c : Collection :=
      { id := newId, name := name, filePath := filePath, compositeKey := compositeKey,
        directoryName := directoryName, environmentName := environmentName,
        collectionName := collectionName }
    ({ db with collections := db.collections ++ [c] }, c)

/-- Embedding of `storage.CreateTestExecution`: append the row with a
fresh serial id. -/
def CreateTestExecution (db : DB) (e : TestExecution) : DB × TestExecution :=
  let newId := db.executions.foldl (fun m x => max m x.id) 0 + 1
  let e2 := { e with id := newId }
  ({ db with executions := db.executions ++ [e2] }, e2)

/-- Embedding of `storage.CreateTestResult`: append the row with a fresh
serial id. -/
def CreateTestResult (db : DB) (r : TestResult) : DB × TestResult :=
  let newId := db.results.foldl (fun m x => max m x.id) 0 + 1
  let r2 := { r with id := newId }
  ({ db with results := db.results ++ [r2] }, r2)

/-- Outcome of one execution unit of `scheduler.executeCollection`. -/
inductive UnitOutcome where
  /-- The executor produced no parseable result: the failure counter is
  incremented and nothing is persisted. -/
  | failedRun
  /-- A collection row was upserted and an execution persisted. -/
  | persisted (collection : Collection) (execution : TestExecution)
deriving Repr, DecidableEq

/-- Embedding of `scheduler.executeCollection`: generate the composite key
from the dispatch-time inputs, invoke the executor, fail without
persisting when no parseable result exists, and otherwise upsert the
collection row, persist one TestExecution whose error field comes from
the result, and persist one TestResult per reported assertion, joined to
request-execution metadata by matching execution name. `parseTime` models
time.Parse of the result's RFC3339 timestamp (falling back to the unit's
start time), `parsed`/`runFailed` model the executor's process outcome. -/
def executeCollection (db : DB) (col : CollectionFile) (directoryName : String)
    (environmentName : Option String) (parsed : Option NewmanResult) (runFailed : Bool)
    (parseTime : String → Option Int) (startTime : Int) : DB × UnitOutcome :=
  let parts := GenerateCompositeKey directoryName environmentName (filepathBase col.fullPath)
  match (Execute parsed runFailed).1 with
  | none => (db, .failedRun)
  | some result =>
    let up := UpsertCollection db result.collectionName col.fullPath
      parts.key parts.dir parts.env parts.col
    let timestamp := (parseTime result.timestamp).getD startTime
    let execution : TestExecution :=
      { id := 0
        collectionId := up.2.id
        collectionName := result.collectionName
        startedAt := timestamp
        completedAt := timestamp + result.totalDurationMs
        durationMs := result.totalDurationMs
        totalTests := result.summary.total
        passedTests := result.summary.passed
        failedTests := result.summary.failed
        error := result.error }
    let cr := CreateTestExecution up.1 execution
    let db3 := result.tests.foldl (fun d test =>
      let base : TestResult :=
        { id := 0, executionId := cr.2.id, testName := test.name,
          executionName := some test.executionName, url := none, method := none,
          status := "unknown", statusCode := none, responseTimeMs := none,
          passed := test.passed, error := test.error }
      let tr :=
        match result.executions.find? (fun ex => ex.name == test.executionName) with
        | some ex =>
          { base with
            url := some ex.url
            method := some ex.method
            status := ex.status
            statusCode := ex.statusCode
            responseTimeMs := ex.responseTime }
        | none => base
      (CreateTestResult d tr).1) cr.1
    (db3, .persisted up.2 cr.2)

/-- What one call of `scheduler.runOnce` does, as observable data: whether
the scan failed, the (group, collection) pairs dispatched as concurrent
execution units, and whether the metrics refresh ran after the join-all.
The Go code returns early (no dispatch, no metrics) on a scan error and
when the scan found no groups. -/
structure CycleReport where
  scanFailed : Bool
  dispatchedPairs : List (CollectionGroup × CollectionFile)
  metricsUpdated : Bool
deriving Repr, DecidableEq

/-- Embedding of `scheduler.runOnce` over the scan outcome: on success one
execution unit is dispatched per (group, collection) pair across every
group, and the metrics updater runs after all units are joined. -/
def runOnce (scan : Except String (List CollectionGroup)) (hasMetricsUpdater : Bool) :
    CycleReport :=
  match scan with
  | .error _ => { scanFailed := true, dispatchedPairs := [], metricsUpdated := false }
  | .ok groups =>
    if groups = [] then
      { scanFailed := false, dispatchedPairs := [], metricsUpdated := false }
    else
      { scanFailed := false
        dispatchedPairs := groups.flatMap (fun g => g.collections.map (fun c => (g, c)))
        metricsUpdated := hasMetricsUpdater }

/-- Observable events of `scheduler.Start`, in program order. A cycle
event carries whether it was timer-triggered, its report, and the time it
began. -/
inductive SchedulerEvent where
  | cycle (timerTriggered : Bool) (report : CycleReport) (time : Int)
  | tickerStarted (time : Int)
deriving Repr, DecidableEq

/-- Embedding of `scheduler.Start`: the first cycle runs synchronously
(`s.runOnce()` is a plain call) before the ticker goroutine is created;
the ticker then fires every `interval`, the k-th tick starting a cycle at
`startTime + (k+1) * interval`. `scanAt n` is the scan outcome of the
n-th cycle and `ticks` how many timer ticks are observed. -/
def Start (scanAt : Nat → Except String (List CollectionGroup))
    (hasMetricsUpdater : Bool) (startTime interval : Int) (ticks : Nat) :
    List SchedulerEvent :=
  [SchedulerEvent.cycle false (runOnce (scanAt 0) hasMetricsUpdater) startTime,
   SchedulerEvent.tickerStarted startTime] ++
  (List.range ticks).map (fun k =>
    SchedulerEvent.cycle true (runOnce (scanAt (k + 1)) hasMetricsUpdater)
      (startTime + (k + 1) * interval))

/-! ## Derived notions used in the statements -/

/-- The composite keys the handler computes for the scanned pairs, one per
(group, collection) pair, in scan order. -/
def scannedKeys (groups : List CollectionGroup) : List String :=
  groups.flatMap (fun g => g.collections.map (fun c => (readKey g c).key))

/-- The CollectionResults a response carries under a composite key. -/
def resultsForKey (lr : LatestResults) (k : String) : List CollectionResult :=
  (allCollectionResults lr).filter (fun cr => cr.collection.compositeKey == k)

/-- A composite key has persisted execution history: some collection row
carries the key and some execution row references that collection. -/
def hasHistory (db : DB) (k : String) : Prop :=
  ∃ c ∈ db.collections, c.compositeKey = k ∧ ∃ e ∈ db.executions, e.collectionId = c.id

instance (db : DB) (k : String) : Decidable (hasHistory db k) := by
  unfold hasHistory; infer_instance

/-- Database well-formedness as enforced by the schema: serial primary
keys of collections are unique, the composite key is unique, and
executions satisfy the foreign key to collections. -/
structure DBWf (db : DB) : Prop where
  idsNodup : (db.collections.map (fun c => c.id)).Nodup
  keysNodup : (db.collections.map (fun c => c.compositeKey)).Nodup
  execFK : ∀ e ∈ db.executions, ∃ c ∈ db.collections, c.id = e.collectionId

/-! ## Concrete fixtures used by counterexamples and witnesses -/

/-- A scanned collection file of directory billing. -/
def cexCol : CollectionFile :=
  { name := "checkout.postman_collection.json"
    path := "billing/checkout.postman_collection.json"
    fullPath := "/collections/billing/checkout.postman_collection.json" }

/-- An environment file whose resolved JSON name differs from its file
name stem. -/
def cexEnv : EnvironmentFile :=
  { name := "Production"
    fileName := "prod.postman_environment.json"
    path := "billing/prod.postman_environment.json"
    fullPath := "/collections/billing/prod.postman_environment.json" }

/-- The scanned group pairing them. -/
def cexGroup : CollectionGroup :=
  { directory := "billing", environment := some cexEnv, collections := [cexCol] }

/-- A persisted collection row under the key billing_env_checkout. -/
def cexCollectionRow : Collection :=
  { id := 1
    name := "Checkout"
    filePath := "/collections/billing/checkout.postman_collection.json"
    compositeKey := "billing_env_checkout"
    directoryName := "billing"
    environmentName := "env"
    collectionName := "checkout" }

/-- A persisted execution row for that collection. -/
def cexExecRow : TestExecution :=
  { id := 1, collectionId := 1, collectionName := "Checkout", startedAt := 100,
    completedAt := 200, durationMs := 100, totalTests := 5, passedTests := 5,
    failedTests := 0, error := none }

/-- A database holding history for a key that no scan sees. -/
def cexDB : DB := { collections := [cexCollectionRow], executions := [cexExecRow], results := [] }

/-- Two executions of one collection sharing the same start timestamp,
in physical row order: the earlier row has the smaller id. -/
def tieExecA : TestExecution :=
  { id := 1, collectionId := 7, collectionName := "A", startedAt := 100, completedAt := 100,
    durationMs := 0, totalTests := 1, passedTests := 1, failedTests := 0, error := none }

/-- The tied second row, identical but for a greater id. -/
def tieExecB : TestExecution := { tieExecA with id := 2 }

/-- First collection row of the two-group determinism fixture. -/
def detColA : Collection :=
  { id := 1, name := "A", filePath := "/c/d1/a.postman_collection.json",
    compositeKey := "d1_env_a", directoryName := "d1", environmentName := "env",
    collectionName := "a" }

/-- Second collection row, in a different directory. -/
def detColB : Collection :=
  { id := 2, name := "B", filePath := "/c/d2/b.postman_collection.json",
    compositeKey := "d2_env_b", directoryName := "d2", environmentName := "env",
    collectionName := "b" }

/-- Execution of the first collection. -/
def detExecA : TestExecution :=
  { id := 1, collectionId := 1, collectionName := "A", startedAt := 10, completedAt := 11,
    durationMs := 1, totalTests := 1, passedTests := 1, failedTests := 0, error := none }

/-- Execution of the second collection. -/
def detExecB : TestExecution := { detExecA with id := 2, collectionId := 2, collectionName := "B" }

/-- A database whose latest results span two grouping keys. -/
def detDB : DB := { collections := [detColA, detColB], executions := [detExecA, detExecB], results := [] }

/-- The first grouping key of `detDB`. -/
def detKeyA : GroupKey := { directory := "d1", envName := "env" }

/-- The second grouping key of `detDB`. -/
def detKeyB : GroupKey := { directory := "d2", envName := "env" }

/-- Last-success scenario row E1: two failures out of five tests. -/
def lsExec1 : TestExecution :=
  { id := 1, collectionId := 3, collectionName := "C", startedAt := 10, completedAt := 11,
    durationMs := 1, totalTests := 5, passedTests := 3, failedTests := 2, error := none }

/-- Last-success scenario row E2: five passing tests, later start. -/
def lsExec2 : TestExecution :=
  { id := 2, collectionId := 3, collectionName := "C", startedAt := 20, completedAt := 21,
    durationMs := 1, totalTests := 5, passedTests := 5, failedTests := 0, error := none }

/-- Last-success scenario row E3: zero tests, latest start. -/
def lsExec3 : TestExecution :=
  { id := 3, collectionId := 3, collectionName := "C", startedAt := 30, completedAt := 31,
    durationMs := 1, totalTests := 0, passedTests := 0, failedTests := 0, error := none }

/-! ## Supporting lemmas -/

theorem mem_insertLe {α : Type} (le : α → α → Bool) (x a : α) (l : List α) :
    a ∈ insertLe le x l ↔ a = x ∨ a ∈ l := by
  induction l with
  | nil => simp [insertLe]
  | cons y ys ih =>
    simp only [insertLe]
    split
    · simp only [List.mem_cons, ih]
      tauto
    · simp [List.mem_cons]

theorem mem_sortBy_aux {α : Type} (le : α → α → Bool) (l : List α) (a : α) :
    ∀ acc, (a ∈ l.foldl (fun acc x => insertLe le x acc) acc ↔ a ∈ acc ∨ a ∈ l) := by
  induction l with
  | nil => intro acc; simp
  | cons x xs ih =>
    intro acc
    simp only [List.foldl_cons]
    rw [ih, mem_insertLe]
    simp only [List.mem_cons]
    tauto

theorem mem_sortBy {α : Type} (le : α → α → Bool) (l : List α) (a : α) :
    a ∈ sortBy le l ↔ a ∈ l := by
  unfold sortBy
  rw [mem_sortBy_aux]
  simp

theorem mem_firstDedup_aux {α : Type} [DecidableEq α] (l : List α) (a : α) :
    ∀ acc, (a ∈ l.foldl (fun acc x => if x ∈ acc then acc else acc ++ [x]) acc ↔
      a ∈ acc ∨ a ∈ l) := by
  induction l with
  | nil => intro acc; simp
  | cons x xs ih =>
    intro acc
    simp only [List.foldl_cons]
    by_cases hx : x ∈ acc
    · rw [if_pos hx, ih]
      simp only [List.mem_cons]
      constructor
      · tauto
      · rintro (h | h | h)
        · exact Or.inl h
        · exact Or.inl (h ▸ hx)
        · exact Or.inr h
    · rw [if_neg hx, ih]
      simp only [List.mem_append, List.mem_singleton, List.mem_cons]
      tauto

theorem mem_firstDedup {α : Type} [DecidableEq α] (l : List α) (a : α) :
    a ∈ firstDedup l ↔ a ∈ l := by
  unfold firstDedup
  rw [mem_firstDedup_aux]
  simp

theorem pickStep_spec (acc : Option TestExecution) (x : TestExecution) :
    ∃ e, pickStep acc x = some e ∧ (e = x ∨ acc = some e) ∧
      x.startedAt ≤ e.startedAt ∧ (∀ a, acc = some a → a.startedAt ≤ e.startedAt) := by
  cases acc with
  | none =>
    exact ⟨x, rfl, Or.inl rfl, le_refl _, by intro a h; cases h⟩
  | some a =>
    by_cases h : x.startedAt > a.startedAt
    · refine ⟨x, ?_, Or.inl rfl, le_refl _, ?_⟩
      · simp [pickStep, h]
      · intro b hb
        cases hb
        omega
    · refine ⟨a, ?_, Or.inr rfl, ?_, ?_⟩
      · simp [pickStep, h]
      · omega
      · intro b hb
        cases hb
        omega

theorem pickLatest_foldl (rows : List TestExecution) :
    ∀ acc,
      (∀ e, rows.foldl pickStep acc = some e →
        (acc = some e ∨ e ∈ rows) ∧
        (∀ a, acc = some a → a.startedAt ≤ e.startedAt) ∧
        (∀ b ∈ rows, b.startedAt ≤ e.startedAt)) ∧
      (rows.foldl pickStep acc = none ↔ acc = none ∧ rows = []) := by
  induction rows with
  | nil =>
    intro acc
    constructor
    · intro e he
      exact ⟨Or.inl he, fun a ha => by rw [ha] at he; cases he; exact le_refl _,
        by intro b hb; cases hb⟩
    · simp
  | cons x xs ih =>
    intro acc
    obtain ⟨e0, he0, he0src, he0x, he0acc⟩ := pickStep_spec acc x
    constructor
    · intro e he
      simp only [List.foldl_cons] at he
      obtain ⟨hsrc, hacc, hall⟩ := ((ih (pickStep acc x)).1 e he)
      refine ⟨?_, ?_, ?_⟩
      · rcases hsrc with h | h
        · rw [he0] at h
          cases h
          rcases he0src with h1 | h1
          · exact Or.inr (h1 ▸ List.mem_cons_self _ _)
          · exact Or.inl h1
        · exact Or.inr (List.mem_cons_of_mem _ h)
      · intro a ha
        have h1 := he0acc a ha
        have h2 := hacc e0 he0
        omega
      · intro b hb
        rcases List.mem_cons.mp hb with h | h
        · subst h
          have h2 := hacc e0 he0
          omega
        · exact hall b h
    · simp only [List.foldl_cons]
      rw [(ih (pickStep acc x)).2]
      simp [he0]

theorem pickLatest_some (rows : List TestExecution) (e : TestExecution)
    (h : pickLatest rows = some e) :
    e ∈ rows ∧ ∀ b ∈ rows, b.startedAt ≤ e.startedAt := by
  obtain ⟨hsrc, _, hall⟩ := (pickLatest_foldl rows none).1 e h
  rcases hsrc with h1 | h1
  · cases h1
  · exact ⟨h1, hall⟩

theorem pickLatest_eq_none (rows : List TestExecution) :
    pickLatest rows = none ↔ rows = [] := by
  unfold pickLatest
  rw [(pickLatest_foldl rows none).2]
  simp

theorem lookup_foldl (k : String) (crs : List CollectionResult) :
    ∀ acc,
      (∀ r, crs.foldl (lookupStep k) acc = some r →
        (r ∈ crs ∧ r.collection.compositeKey = k) ∨ acc = some r) ∧
      (crs.foldl (lookupStep k) acc = none ↔
        acc = none ∧ ∀ cr ∈ crs, cr.collection.compositeKey ≠ k) := by
  induction crs with
  | nil =>
    intro acc
    constructor
    · intro r hr; exact Or.inr hr
    · simp
  | cons cr crs ih =>
    intro acc
    constructor
    · intro r hr
      simp only [List.foldl_cons] at hr
      rcases (ih (lookupStep k acc cr)).1 r hr with h | h
      · exact Or.inl ⟨List.mem_cons_of_mem _ h.1, h.2⟩
      · unfold lookupStep at h
        split at h
        · cases h
          rename_i hk
          exact Or.inl ⟨List.mem_cons_self _ _, by simpa using hk⟩
        · exact Or.inr h
    · simp only [List.foldl_cons]
      rw [(ih (lookupStep k acc cr)).2]
      unfold lookupStep
      constructor
      · rintro ⟨h1, h2⟩
        split at h1
        · cases h1
        · rename_i hk
          refine ⟨h1, ?_⟩
          intro x hx
          rcases List.mem_cons.mp hx with h | h
          · subst h; simpa using hk
          · exact h2 x h
      · rintro ⟨h1, h2⟩
        have hk : cr.collection.compositeKey ≠ k := h2 cr (List.mem_cons_self _ _)
        constructor
        · split
          · rename_i hc; exact absurd (by simpa using hc) hk
          · exact h1
        · intro x hx
          exact h2 x (List.mem_cons_of_mem _ hx)

theorem lookup_some (crs : List CollectionResult) (k : String) (r : CollectionResult)
    (h : lookupByCompositeKey crs k = some r) :
    r ∈ crs ∧ r.collection.compositeKey = k := by
  rcases (lookup_foldl k crs none).1 r h with h1 | h1
  · exact h1
  · cases h1

theorem lookup_eq_none (crs : List CollectionResult) (k : String) :
    lookupByCompositeKey crs k = none ↔ ∀ cr ∈ crs, cr.collection.compositeKey ≠ k := by
  unfold lookupByCompositeKey
  rw [(lookup_foldl k crs none).2]
  simp

theorem mem_latest_test_executions (rows : List TestExecution) (e : TestExecution)
    (h : e ∈ latest_test_executions rows) :
    e ∈ rows ∧ ∀ b ∈ rows, b.collectionId = e.collectionId → b.startedAt ≤ e.startedAt := by
  unfold latest_test_executions at h
  rw [List.mem_filterMap] at h
  obtain ⟨cid, _, hpick⟩ := h
  obtain ⟨hmem, hmax⟩ := pickLatest_some _ _ hpick
  rw [List.mem_filter] at hmem
  have hcideq : e.collectionId = cid := by simpa using hmem.2
  refine ⟨hmem.1, ?_⟩
  intro b hb hbe
  refine hmax b ?_
  rw [List.mem_filter]
  exact ⟨hb, by simp [hbe, hcideq]⟩

theorem latest_test_executions_cover (rows : List TestExecution) (row : TestExecution)
    (h : row ∈ rows) :
    ∃ e ∈ latest_test_executions rows, e.collectionId = row.collectionId := by
  have hrowf : row ∈ rows.filter (fun e => e.collectionId == row.collectionId) := by
    rw [List.mem_filter]
    exact ⟨h, by simp⟩
  have hne : rows.filter (fun e => e.collectionId == row.collectionId) ≠ [] := by
    intro hnil
    rw [hnil] at hrowf
    cases hrowf
  obtain ⟨e, he⟩ : ∃ e, pickLatest (rows.filter (fun x => x.collectionId == row.collectionId)) = some e := by
    cases hp : pickLatest (rows.filter (fun x => x.collectionId == row.collectionId)) with
    | none => rw [pickLatest_eq_none] at hp; exact absurd hp hne
    | some e => exact ⟨e, rfl⟩
  refine ⟨e, ?_, ?_⟩
  · unfold latest_test_executions
    rw [List.mem_filterMap]
    refine ⟨row.collectionId, ?_, he⟩
    rw [mem_sortBy, mem_firstDedup]
    exact List.mem_map_of_mem _ h
  · have hmem := (pickLatest_some _ _ he).1
    rw [List.mem_filter] at hmem
    simpa using hmem.2

theorem mem_GetLatestExecutions (rows : List TestExecution) (e : TestExecution) :
    e ∈ GetLatestExecutions rows ↔ e ∈ latest_test_executions rows := by
  unfold GetLatestExecutions
  exact mem_sortBy _ _ _

theorem mem_GetAllCollections (cols : List Collection) (c : Collection) :
    c ∈ GetAllCollections cols ↔ c ∈ cols := by
  unfold GetAllCollections
  exact mem_sortBy _ _ _

theorem mem_collectionResultsOf (db : DB) (cr : CollectionResult)
    (h : cr ∈ collectionResultsOf db) :
    ∃ e ∈ latest_test_executions db.executions, ∃ c ∈ db.collections,
      c.id = e.collectionId ∧ cr.collection = c ∧ cr.execution = some e := by
  unfold collectionResultsOf at h
  rw [List.mem_filterMap] at h
  obtain ⟨e, he, hbuild⟩ := h
  rw [mem_GetLatestExecutions] at he
  cases hfind : (GetAllCollections db.collections).find? (fun c => c.id == e.collectionId) with
  | none => rw [hfind] at hbuild; cases hbuild
  | some c =>
    rw [hfind] at hbuild
    cases hbuild
    have hcm : c ∈ db.collections := (mem_GetAllCollections _ _).mp (List.mem_of_find?_eq_some hfind)
    have hcid : c.id = e.collectionId := by simpa using List.find?_some hfind
    exact ⟨e, he, c, hcm, hcid, rfl, rfl⟩

theorem collectionResultsOf_execution_isSome (db : DB) (cr : CollectionResult)
    (h : cr ∈ collectionResultsOf db) : cr.execution.isSome := by
  obtain ⟨e, _, c, _, _, _, hexec⟩ := mem_collectionResultsOf db cr h
  rw [hexec]
  rfl

theorem mem_allCollectionResults_GetLatestResultsWith (db : DB) (now : Int)
    (keyOrder : List GroupKey) (hvalid : validKeyOrder db keyOrder) (cr : CollectionResult) :
    cr ∈ allCollectionResults (GetLatestResultsWith db now keyOrder) ↔
      cr ∈ collectionResultsOf db := by
  unfold allCollectionResults GetLatestResultsWith
  rw [List.mem_flatMap]
  constructor
  · rintro ⟨g, hg, hcr⟩
    rw [List.mem_map] at hg
    obtain ⟨k, _, hgk⟩ := hg
    subst hgk
    unfold mkEnvironmentGroup at hcr
    simp only at hcr
    exact (List.mem_filter.mp hcr).1
  · intro hcr
    set k : GroupKey :=
      { directory := cr.collection.directoryName, envName := cr.collection.environmentName }
      with hk
    have hkin : k ∈ keyOrder := by
      rw [hvalid.mem_iff]
      unfold groupMapKeys
      rw [mem_firstDedup, List.mem_map]
      exact ⟨cr, hcr, rfl⟩
    refine ⟨mkEnvironmentGroup k ((collectionResultsOf db).filter (fun cr =>
      cr.collection.directoryName == k.directory && cr.collection.environmentName == k.envName)),
      ?_, ?_⟩
    · rw [List.mem_map]
      exact ⟨k, hkin, rfl⟩
    · unfold mkEnvironmentGroup
      simp only
      rw [List.mem_filter]
      exact ⟨hcr, by simp [hk]⟩

theorem canonical_validKeyOrder (db : DB) :
    validKeyOrder db (groupMapKeys (collectionResultsOf db)) :=
  List.Perm.refl _

theorem collectionResultsOf_key_iff (db : DB) (hwf : DBWf db) (k : String) :
    (∃ cr ∈ collectionResultsOf db, cr.collection.compositeKey = k) ↔ hasHistory db k := by
  constructor
  · rintro ⟨cr, hcr, hkey⟩
    obtain ⟨e, he, c, hc, hcid, hcol, _⟩ := mem_collectionResultsOf db cr hcr
    refine ⟨c, hc, ?_, e, (mem_latest_test_executions _ _ he).1, hcid.symm⟩
    rw [← hcol]
    exact hkey
  · rintro ⟨c, hc, hkey, e, he, hecid⟩
    obtain ⟨e2, he2, he2cid⟩ := latest_test_executions_cover db.executions e he
    have hfind : ∃ c2, (GetAllCollections db.collections).find?
        (fun x => x.id == e2.collectionId) = some c2 := by
      cases hf : (GetAllCollections db.collections).find? (fun x => x.id == e2.collectionId) with
      | none =>
        rw [List.find?_eq_none] at hf
        exact absurd (by simp [he2cid, hecid]) (hf c ((mem_GetAllCollections _ _).mpr hc))
      | some c2 => exact ⟨c2, rfl⟩
    obtain ⟨c2, hc2⟩ := hfind
    have hc2mem : c2 ∈ db.collections :=
      (mem_GetAllCollections _ _).mp (List.mem_of_find?_eq_some hc2)
    have hc2id : c2.id = e2.collectionId := by simpa using List.find?_some hc2
    have hceq : c2 = c := by
      refine List.inj_on_of_nodup_map hwf.idsNodup hc2mem hc ?_
      rw [hc2id, he2cid, ← hecid]
    refine ⟨{ collection := c2
              execution := some e2
              lastSuccessExecution := GetLastSuccessfulExecution db.executions e2.collectionId
              results := GetTestResultsByExecutionID db.results e2.id }, ?_, ?_⟩
    · unfold collectionResultsOf
      rw [List.mem_filterMap]
      refine ⟨e2, (mem_GetLatestExecutions _ _).mpr he2, ?_⟩
      rw [hc2]
    · rw [hceq]
      exact hkey

theorem storage_lookup_isSome_iff (db : DB) (now : Int) (hwf : DBWf db) (k : String) :
    (∃ r, lookupByCompositeKey (allCollectionResults (GetLatestResults db now)) k = some r) ↔
      hasHistory db k := by
  constructor
  · rintro ⟨r, hr⟩
    obtain ⟨hmem, hkey⟩ := lookup_some _ _ _ hr
    unfold GetLatestResults at hmem
    rw [mem_allCollectionResults_GetLatestResultsWith db now _ (canonical_validKeyOrder db)] at hmem
    exact (collectionResultsOf_key_iff db hwf k).mp ⟨r, hmem, hkey⟩
  · intro hh
    obtain ⟨cr, hcr, hkey⟩ := (collectionResultsOf_key_iff db hwf k).mpr hh
    cases hl : lookupByCompositeKey (allCollectionResults (GetLatestResults db now)) k with
    | none =>
      rw [lookup_eq_none] at hl
      refine absurd hkey (hl cr ?_)
      unfold GetLatestResults
      rw [mem_allCollectionResults_GetLatestResultsWith db now _ (canonical_validKeyOrder db)]
      exact hcr
    | some r => exact ⟨r, rfl⟩

theorem handlerResultFor_key (stored : List CollectionResult) (g : CollectionGroup)
    (c : CollectionFile) :
    (handlerResultFor stored g c).collection.compositeKey = (readKey g c).key := by
  unfold handlerResultFor readKey
  simp only
  cases hl : lookupByCompositeKey stored
      (GenerateCompositeKey g.directory (g.environment.map (fun e => e.name))
        (filepathBase c.fullPath)).key with
  | some r =>
    simp only [hl]
    exact (lookup_some _ _ _ hl).2
  | none => simp [hl]

theorem allCollectionResults_handleResults (groups : List CollectionGroup) (db : DB)
    (now : Int) :
    allCollectionResults (handleResults groups db now) =
      groups.flatMap (fun g => g.collections.map
        (handlerResultFor (allCollectionResults (GetLatestResults db now)) g)) := by
  unfold handleResults allCollectionResults
  rw [List.flatMap_map]

theorem resultsForKey_handleResults_length (groups : List CollectionGroup) (db : DB)
    (now : Int) (k : String) :
    (resultsForKey (handleResults groups db now) k).length = (scannedKeys groups).count k := by
  unfold resultsForKey scannedKeys
  rw [allCollectionResults_handleResults, List.count_flatMap, List.filter_flatMap,
    List.length_flatMap]
  congr 1
  refine List.map_congr_left ?_
  intro g _
  simp only [Function.comp]
  rw [List.filter_map, List.length_map, List.count_eq_countP, List.countP_eq_length_filter,
    List.filter_map, List.length_map]
  congr 1
  refine List.filter_congr ?_
  intro c _
  simp only [Function.comp]
  rw [handlerResultFor_key]

theorem strToLower_data (s : String) : (strToLower s).data = s.data.map Char.toLower := rfl

theorem strToLower_empty_iff (s t : String) (h : strToLower s = strToLower t) :
    s = "" ↔ t = "" := by
  have hd : s.data.map Char.toLower = t.data.map Char.toLower := by
    have := congrArg String.data h
    simpa [strToLower_data] using this
  have hlen : s.data.length = t.data.length := by
    have := congrArg List.length hd
    simpa using this
  rw [String.ext_iff, String.ext_iff]
  show s.data = "".data ↔ t.data = "".data
  constructor
  · intro hs
    rw [hs] at hlen
    exact List.length_eq_zero.mp (by simpa using hlen.symm)
  · intro ht
    rw [ht] at hlen
    exact List.length_eq_zero.mp (by simpa using hlen)

theorem strToLower_trimSuffix_congr (c₁ c₂ suf : String)
    (h1 : strHasSuffix c₁ suf = true) (h2 : strHasSuffix c₂ suf = true)
    (h : strToLower c₁ = strToLower c₂) :
    strToLower (strTrimSuffix c₁ suf) = strToLower (strTrimSuffix c₂ suf) := by
  have hd : c₁.data.map Char.toLower = c₂.data.map Char.toLower := by
    have := congrArg String.data h
    simpa [strToLower_data] using this
  have hlen : c₁.data.length = c₂.data.length := by
    have := congrArg List.length hd
    simpa using this
  unfold strTrimSuffix
  rw [h1, h2]
  simp only [if_pos]
  unfold strToLower
  refine String.ext ?_
  show (c₁.data.take (c₁.data.length - suf.data.length)).map Char.toLower =
    (c₂.data.take (c₂.data.length - suf.data.length)).map Char.toLower
  rw [List.map_take, List.map_take, hlen, hd]

/-! ## Claim C6 -/

/-- C6, counterexample: the claim that changing only the letter case of
any input leaves the composite key unchanged is false, because Go
strings.TrimSuffix is case-sensitive: uppercasing letters inside the
collection-file suffix prevents the strip, changing the key. -/
theorem C6_suffix_case_changes_key :
    strToLower "c.Postman_Collection.json" = strToLower "c.postman_collection.json" ∧
    GenerateCompositeKey "b" (some "p") "c.Postman_Collection.json" ≠
      GenerateCompositeKey "b" (some "p") "c.postman_collection.json" := by
  constructor
  · decide
  · decide

/-- C6, amended: `GenerateCompositeKey` is case-insensitive in the
directory, in the environment, and in the collection file name provided
both variants end with the collection suffix in its exact lowercase
spelling; case changes inside the suffix itself are not neutral (see the
counterexample). -/
theorem C6_composite_key_case_insensitive_amended
    (d₁ d₂ : String) (e₁ e₂ : Option String) (c₁ c₂ : String)
    (hd : strToLower d₁ = strToLower d₂)
    (he : (e₁ = none ∧ e₂ = none) ∨
      (∃ s₁ s₂, e₁ = some s₁ ∧ e₂ = some s₂ ∧ strToLower s₁ = strToLower s₂))
    (hc1 : strHasSuffix c₁ collectionSuffix = true)
    (hc2 : strHasSuffix c₂ collectionSuffix = true)
    (hc : strToLower c₁ = strToLower c₂) :
    GenerateCompositeKey d₁ e₁ c₁ = GenerateCompositeKey d₂ e₂ c₂ := by
  have hcol : strToLower (strTrimSuffix c₁ collectionSuffix) =
      strToLower (strTrimSuffix c₂ collectionSuffix) :=
    strToLower_trimSuffix_congr c₁ c₂ collectionSuffix hc1 hc2 hc
  unfold GenerateCompositeKey
  simp only [resolveEnvName]
  rcases he with ⟨he1, he2⟩ | ⟨s₁, s₂, he1, he2, hs⟩
  · subst he1; subst he2
    rw [hd, hcol]
  · subst he1; subst he2
    simp only [resolveEnvName]
    by_cases hemp : s₁ = ""
    · have hemp2 : s₂ = "" := (strToLower_empty_iff s₁ s₂ hs).mp hemp
      subst hemp; subst hemp2
      rw [hd, hcol]
    · have hemp2 : s₂ ≠ "" := fun h => hemp ((strToLower_empty_iff s₁ s₂ hs).mpr h)
      rw [if_pos hemp, if_pos hemp2, hd, hcol, hs]

/-- C6, witness: the amended theorem at the instance quoted by the
specification. -/
theorem C6_composite_key_witness :
    GenerateCompositeKey "Billing" (some "Prod") "Checkout.postman_collection.json" =
      GenerateCompositeKey "billing" (some "prod") "checkout.postman_collection.json" :=
  C6_composite_key_case_insensitive_amended
    "Billing" "billing" (some "Prod") (some "prod")
    "Checkout.postman_collection.json" "checkout.postman_collection.json"
    (by decide)
    (Or.inr ⟨"Prod", "prod", rfl, rfl, by decide⟩)
    (by decide) (by decide) (by decide)

/-! ## Claim C7 -/

theorem classifyStep_append (sp sn : String) (parse : String → Option String)
    (acc : List EnvironmentFile × List CollectionFile) (entry : DirEntry) :
    classifyStep sp sn parse acc entry =
      (acc.1 ++ (classifyStep sp sn parse ([], []) entry).1,
       acc.2 ++ (classifyStep sp sn parse ([], []) entry).2) := by
  unfold classifyStep
  by_cases hdir : entry.isDir = true
  · simp [hdir]
  · rw [if_neg hdir, if_neg hdir]
    by_cases hjson : strHasSuffix (strToLower entry.name) ".json" = true
    · rw [if_pos hjson, if_pos hjson]
      by_cases hcont : strContains (strToLower entry.name) environmentSuffix = true
      · rw [if_pos hcont, if_pos hcont]
        cases hp : parseEnvironmentFile (parse entry.name) (sp ++ "/" ++ entry.name)
            entry.name (sn ++ "/" ++ entry.name) with
        | none => simp
        | some envFile => simp
      · rw [if_neg hcont, if_neg hcont]
        simp
    · rw [if_neg hjson, if_neg hjson]
      simp

theorem classify_foldl_append (sp sn : String) (parse : String → Option String)
    (entries : List DirEntry) :
    ∀ acc, entries.foldl (classifyStep sp sn parse) acc =
      (acc.1 ++ (classifyEntries sp sn entries parse).1,
       acc.2 ++ (classifyEntries sp sn entries parse).2) := by
  induction entries with
  | nil => intro acc; simp [classifyEntries]
  | cons entry rest ih =>
    intro acc
    have hcons : classifyEntries sp sn (entry :: rest) parse =
        ((classifyStep sp sn parse ([], []) entry).1 ++ (classifyEntries sp sn rest parse).1,
         (classifyStep sp sn parse ([], []) entry).2 ++ (classifyEntries sp sn rest parse).2) := by
      unfold classifyEntries
      rw [List.foldl_cons, ih (classifyStep sp sn parse ([], []) entry)]
      rfl
    rw [List.foldl_cons, ih (classifyStep sp sn parse acc entry), hcons,
      classifyStep_append sp sn parse acc entry]
    simp

/-- The membership condition for one entry landing in the environment list. -/
theorem mem_classifyStep_env (sp sn : String) (parse : String → Option String)
    (ef : EnvironmentFile) (entry : DirEntry) :
    ef ∈ (classifyStep sp sn parse ([], []) entry).1 ↔
      (entry.isDir = false ∧ strHasSuffix (strToLower entry.name) ".json" = true ∧
        strContains (strToLower entry.name) environmentSuffix = true ∧
        parseEnvironmentFile (parse entry.name) (sp ++ "/" ++ entry.name) entry.name
          (sn ++ "/" ++ entry.name) = some ef) := by
  unfold classifyStep
  by_cases hdir : entry.isDir = true
  · simp [hdir]
  · rw [if_neg hdir]
    have hdirf : entry.isDir = false := by simpa using hdir
    by_cases hjson : strHasSuffix (strToLower entry.name) ".json" = true
    · rw [if_pos hjson]
      by_cases hcont : strContains (strToLower entry.name) environmentSuffix = true
      · rw [if_pos hcont]
        cases hp : parseEnvironmentFile (parse entry.name) (sp ++ "/" ++ entry.name)
            entry.name (sn ++ "/" ++ entry.name) with
        | none => simp [hdirf, hjson, hcont, hp]
        | some envFile => simp [hdirf, hjson, hcont, hp, eq_comm]
      · rw [if_neg hcont]
        simp only [List.not_mem_nil, false_iff]
        rintro ⟨-, -, hc, -⟩
        exact hcont hc
    · rw [if_neg hjson]
      simp only [List.not_mem_nil, false_iff]
      rintro ⟨-, hj, -, -⟩
      exact hjson hj

/-- The membership condition for one entry landing in the collection list. -/
theorem mem_classifyStep_col (sp sn : String) (parse : String → Option String)
    (cf : CollectionFile) (entry : DirEntry) :
    cf ∈ (classifyStep sp sn parse ([], []) entry).2 ↔
      (entry.isDir = false ∧ strHasSuffix (strToLower entry.name) ".json" = true ∧
        strContains (strToLower entry.name) environmentSuffix = false ∧
        cf = { name := entry.name
               path := sn ++ "/" ++ entry.name
               fullPath := sp ++ "/" ++ entry.name }) := by
  unfold classifyStep
  by_cases hdir : entry.isDir = true
  · simp [hdir]
  · rw [if_neg hdir]
    have hdirf : entry.isDir = false := by simpa using hdir
    by_cases hjson : strHasSuffix (strToLower entry.name) ".json" = true
    · rw [if_pos hjson]
      by_cases hcont : strContains (strToLower entry.name) environmentSuffix = true
      · rw [if_pos hcont]
        cases hp : parseEnvironmentFile (parse entry.name) (sp ++ "/" ++ entry.name)
            entry.name (sn ++ "/" ++ entry.name) with
        | none =>
          simp only [List.not_mem_nil, false_iff]
          rintro ⟨-, -, hc, -⟩
          rw [hcont] at hc
          cases hc
        | some envFile =>
          simp only [List.not_mem_nil, false_iff]
          rintro ⟨-, -, hc, -⟩
          rw [hcont] at hc
          cases hc
      · rw [if_neg hcont]
        have hcontf : strContains (strToLower entry.name) environmentSuffix = false := by
          simpa using hcont
        simp [hdirf, hjson, hcontf]
    · rw [if_neg hjson]
      have hjsonf : strHasSuffix (strToLower entry.name) ".json" = false := by
        simpa using hjson
      simp [hjsonf]

theorem mem_classifyEntries_env (sp sn : String) (parse : String → Option String)
    (ef : EnvironmentFile) (entries : List DirEntry) :
    ef ∈ (classifyEntries sp sn entries parse).1 ↔
      ∃ entry ∈ entries, entry.isDir = false ∧
        strHasSuffix (strToLower entry.name) ".json" = true ∧
        strContains (strToLower entry.name) environmentSuffix = true ∧
        parseEnvironmentFile (parse entry.name) (sp ++ "/" ++ entry.name) entry.name
          (sn ++ "/" ++ entry.name) = some ef := by
  induction entries with
  | nil => simp [classifyEntries]
  | cons entry rest ih =>
    have hcons : classifyEntries sp sn (entry :: rest) parse =
        ((classifyStep sp sn parse ([], []) entry).1 ++ (classifyEntries sp sn rest parse).1,
         (classifyStep sp sn parse ([], []) entry).2 ++ (classifyEntries sp sn rest parse).2) := by
      unfold classifyEntries
      rw [List.foldl_cons, classify_foldl_append sp sn parse rest]
      rfl
    rw [hcons]
    simp only [List.mem_append, mem_classifyStep_env, ih, List.mem_cons]
    constructor
    · rintro (h | ⟨e, he, h⟩)
      · exact ⟨entry, Or.inl rfl, h⟩
      · exact ⟨e, Or.inr he, h⟩
    · rintro ⟨e, he | he, h⟩
      · subst he; exact Or.inl h
      · exact Or.inr ⟨e, he, h⟩

theorem mem_classifyEntries_col (sp sn : String) (parse : String → Option String)
    (cf : CollectionFile) (entries : List DirEntry) :
    cf ∈ (classifyEntries sp sn entries parse).2 ↔
      ∃ entry ∈ entries, entry.isDir = false ∧
        strHasSuffix (strToLower entry.name) ".json" = true ∧
        strContains (strToLower entry.name) environmentSuffix = false ∧
        cf = { name := entry.name
               path := sn ++ "/" ++ entry.name
               fullPath := sp ++ "/" ++ entry.name } := by
  induction entries with
  | nil => simp [classifyEntries]
  | cons entry rest ih =>
    have hcons : classifyEntries sp sn (entry :: rest) parse =
        ((classifyStep sp sn parse ([], []) entry).1 ++ (classifyEntries sp sn rest parse).1,
         (classifyStep sp sn parse ([], []) entry).2 ++ (classifyEntries sp sn rest parse).2) := by
      unfold classifyEntries
      rw [List.foldl_cons, classify_foldl_append sp sn parse rest]
      rfl
    rw [hcons]
    simp only [List.mem_append, mem_classifyStep_col, ih, List.mem_cons]
    constructor
    · rintro (h | ⟨e, he, h⟩)
      · exact ⟨entry, Or.inl rfl, h⟩
      · exact ⟨e, Or.inr he, h⟩
    · rintro ⟨e, he | he, h⟩
      · subst he; exact Or.inl h
      · exact Or.inr ⟨e, he, h⟩

/-- C7, amended: within an included subdirectory a non-directory entry
becomes an EnvironmentFile exactly when its lowercased name ends in
".json" and CONTAINS the substring ".postman_environment.json" (and its
content parses); it becomes a CollectionFile exactly when its lowercased
name ends in ".json" and does not contain that substring; all other
entries are ignored. The original claim's suffix-match rule is refuted by
the counterexample. -/
theorem C7_classification_by_containment (sp sn : String) (entries : List DirEntry)
    (parse : String → Option String) (ef : EnvironmentFile) (cf : CollectionFile) :
    (ef ∈ (classifyEntries sp sn entries parse).1 ↔
      ∃ entry ∈ entries, entry.isDir = false ∧
        strHasSuffix (strToLower entry.name) ".json" = true ∧
        strContains (strToLower entry.name) environmentSuffix = true ∧
        parseEnvironmentFile (parse entry.name) (sp ++ "/" ++ entry.name) entry.name
          (sn ++ "/" ++ entry.name) = some ef) ∧
    (cf ∈ (classifyEntries sp sn entries parse).2 ↔
      ∃ entry ∈ entries, entry.isDir = false ∧
        strHasSuffix (strToLower entry.name) ".json" = true ∧
        strContains (strToLower entry.name) environmentSuffix = false ∧
        cf = { name := entry.name
               path := sn ++ "/" ++ entry.name
               fullPath := sp ++ "/" ++ entry.name }) := by
  exact ⟨mem_classifyEntries_env sp sn parse ef entries,
    mem_classifyEntries_col sp sn parse cf entries⟩

/-- C7, counterexample: a file name that merely CONTAINS the environment
suffix without ENDING in it is classified as an environment file by the
scanner, where the claim's suffix rule would make it a collection file. -/
theorem C7_contains_not_suffix :
    strHasSuffix (strToLower "a.postman_environment.json.json") environmentSuffix = false ∧
    (classifyEntries "/c/d" "d" [{ name := "a.postman_environment.json.json", isDir := false }]
        (fun _ => some "X")).1 =
      [{ name := "X", fileName := "a.postman_environment.json.json",
         path := "d/a.postman_environment.json.json",
         fullPath := "/c/d/a.postman_environment.json.json" }] ∧
    (classifyEntries "/c/d" "d" [{ name := "a.postman_environment.json.json", isDir := false }]
        (fun _ => some "X")).2 = [] := by
  refine ⟨by decide, by decide, by decide⟩

/-! ## Claim C5 -/

/-- C5: for an included subdirectory with classified environment files E
and collection files C, the scanner emits one group per environment, each
group carrying the entire list C and one distinct environment (distinct
environments give distinct group environments); with no environments and
some collections it emits exactly one environment-less group carrying C;
with neither it emits nothing. -/
theorem C5_grouping_cartesian (sp sn : String) (entries : List DirEntry)
    (parse : String → Option String) (E : List EnvironmentFile) (C : List CollectionFile)
    (hEC : classifyEntries sp sn entries parse = (E, C)) :
    (E.length > 0 →
      (scanSubdirectory sp sn entries parse).length = E.length ∧
      (∀ g ∈ scanSubdirectory sp sn entries parse, g.directory = sn ∧ g.collections = C) ∧
      (scanSubdirectory sp sn entries parse).map (fun g => g.environment) = E.map some ∧
      (E.Nodup → ((scanSubdirectory sp sn entries parse).map (fun g => g.environment)).Nodup)) ∧
    (E = [] → C ≠ [] →
      scanSubdirectory sp sn entries parse =
        [{ directory := sn, environment := none, collections := C }]) ∧
    (E = [] → C = [] → scanSubdirectory sp sn entries parse = []) := by
  unfold scanSubdirectory
  rw [hEC]
  simp only
  refine ⟨?_, ?_, ?_⟩
  · intro hpos
    have hne : E ≠ [] := List.ne_nil_of_length_pos hpos
    rw [if_pos hne]
    refine ⟨by rw [List.length_map], ?_, ?_, ?_⟩
    · intro g hg
      rw [List.mem_map] at hg
      obtain ⟨e, _, hge⟩ := hg
      rw [← hge]
      exact ⟨rfl, rfl⟩
    · rw [List.map_map]
      rfl
    · intro hnodup
      rw [List.map_map]
      have hcomp : ((fun g : CollectionGroup => g.environment) ∘ fun envFile =>
          ({ directory := sn, environment := some envFile, collections := C } :
            CollectionGroup)) = fun e => some e := rfl
      rw [hcomp]
      exact hnodup.map (fun e₁ e₂ h => by injection h)
  · intro hE hC
    rw [if_neg (by simp [hE]), if_pos hC]
  · intro hE hC
    rw [if_neg (by simp [hE]), if_neg (by simp [hC])]

/-- C5, witness: a directory with collections A, B and environments
e1, e2 yields exactly two groups, each carrying both collections. -/
theorem C5_grouping_witness :
    (scanSubdirectory "/c/billing" "billing"
      [{ name := "A.postman_collection.json", isDir := false },
       { name := "B.postman_collection.json", isDir := false },
       { name := "e1.postman_environment.json", isDir := false },
       { name := "e2.postman_environment.json", isDir := false }]
      (fun _ => some "")).length = 2 := by
  have h := (C5_grouping_cartesian "/c/billing" "billing"
    [{ name := "A.postman_collection.json", isDir := false },
     { name := "B.postman_collection.json", isDir := false },
     { name := "e1.postman_environment.json", isDir := false },
     { name := "e2.postman_environment.json", isDir := false }]
    (fun _ => some "")
    [{ name := "e1", fileName := "e1.postman_environment.json"
       path := "billing/e1.postman_environment.json"
       fullPath := "/c/billing/e1.postman_environment.json" },
     { name := "e2", fileName := "e2.postman_environment.json"
       path := "billing/e2.postman_environment.json"
       fullPath := "/c/billing/e2.postman_environment.json" }]
    [{ name := "A.postman_collection.json"
       path := "billing/A.postman_collection.json"
       fullPath := "/c/billing/A.postman_collection.json" },
     { name := "B.postman_collection.json"
       path := "billing/B.postman_collection.json"
       fullPath := "/c/billing/B.postman_collection.json" }]
    (by decide)).1 (by decide)
  exact h.1

/-! ## Claim C2 -/

/-- C2: the composite key computed at dispatch time (environment
component from the environment FILE NAME with the suffix stripped) and
the key computed at read time by the /api/results handler (environment
component from the resolved name field) differ for the same scanned pair
whenever the resolved name differs from the file name stem: with file
prod.postman_environment.json resolving to name Production, dispatch
persists under billing_prod_checkout while the handler looks up
billing_production_checkout, so identity drifts between write and read. -/
theorem C2_dispatch_read_key_drift :
    (dispatchKey cexGroup cexCol).key = "billing_prod_checkout" ∧
    (readKey cexGroup cexCol).key = "billing_production_checkout" ∧
    (dispatchKey cexGroup cexCol).key ≠ (readKey cexGroup cexCol).key := by
  refine ⟨by decide, by decide, by decide⟩

/-! ## Claim C3 -/

/-- C3, amended: every row of the latest-executions view belongs to the
table and carries the greatest started_at among its collection's rows,
and every collection with at least one row is represented; the view's
ORDER BY has no id key, so ties on started_at are NOT broken by greatest
id (see the counterexample). -/
theorem C3_latest_execution_max_started_at (rows : List TestExecution) :
    (∀ e ∈ GetLatestExecutions rows,
      e ∈ rows ∧ ∀ b ∈ rows, b.collectionId = e.collectionId → b.startedAt ≤ e.startedAt) ∧
    (∀ row ∈ rows, ∃ e ∈ GetLatestExecutions rows, e.collectionId = row.collectionId) := by
  constructor
  · intro e he
    exact mem_latest_test_executions rows e ((mem_GetLatestExecutions rows e).mp he)
  · intro row hrow
    obtain ⟨e, he, hc⟩ := latest_test_executions_cover rows row hrow
    exact ⟨e, (mem_GetLatestExecutions rows e).mpr he, hc⟩

/-- C3, witness: the amended theorem evaluated on the two-row tie
fixture. -/
theorem C3_latest_execution_witness :
    tieExecA ∈ [tieExecA, tieExecB] ∧
    ∀ b ∈ [tieExecA, tieExecB], b.collectionId = tieExecA.collectionId →
      b.startedAt ≤ tieExecA.startedAt :=
  (C3_latest_execution_max_started_at [tieExecA, tieExecB]).1 tieExecA (by decide)

/-- C3, counterexample: with two rows of one collection sharing the same
started_at, the view keeps the earlier physical row, which has the
SMALLER id — the claim's greatest-id tie-break does not hold. -/
theorem C3_tie_not_broken_by_id :
    latest_test_executions [tieExecA, tieExecB] = [tieExecA] ∧
    tieExecB ∈ [tieExecA, tieExecB] ∧
    tieExecB.collectionId = tieExecA.collectionId ∧
    tieExecB.startedAt = tieExecA.startedAt ∧
    tieExecA.id < tieExecB.id := by
  refine ⟨by decide, by decide, by decide, by decide, by decide⟩

/-! ## Claim C4 -/

/-- C4, amended: for a fixed persisted state and fixed clock, two calls
of GetLatestResults agree up to the ORDER of the emitted environment
groups (the same group multiset and the same timestamp); the order
itself comes from Go map iteration, which is randomized (see the
counterexample). -/
theorem C4_latest_results_deterministic_up_to_group_order (db : DB) (now : Int)
    (o₁ o₂ : List GroupKey) (h₁ : validKeyOrder db o₁) (h₂ : validKeyOrder db o₂) :
    List.Perm (GetLatestResultsWith db now o₁).environmentGroups
      (GetLatestResultsWith db now o₂).environmentGroups ∧
    (GetLatestResultsWith db now o₁).updatedAt = (GetLatestResultsWith db now o₂).updatedAt := by
  constructor
  · unfold GetLatestResultsWith
    simp only
    exact List.Perm.map _ (h₁.trans h₂.symm)
  · rfl

/-- C4, witness: the amended theorem at the two-key fixture for the two
opposite iteration orders. -/
theorem C4_determinism_witness :
    List.Perm (GetLatestResultsWith detDB 0 [detKeyA, detKeyB]).environmentGroups
      (GetLatestResultsWith detDB 0 [detKeyB, detKeyA]).environmentGroups := by
  have hkeys : groupMapKeys (collectionResultsOf detDB) = [detKeyA, detKeyB] := by decide
  have h₁ : validKeyOrder detDB [detKeyA, detKeyB] := by
    unfold validKeyOrder
    rw [hkeys]
  have h₂ : validKeyOrder detDB [detKeyB, detKeyA] := by
    unfold validKeyOrder
    rw [hkeys]
    exact List.Perm.swap detKeyA detKeyB []
  exact (C4_latest_results_deterministic_up_to_group_order detDB 0 _ _ h₁ h₂).1

/-- C4, counterexample: two legal map iteration orders over the same
persisted state produce different outputs (the environment groups come
out in different orders), so two calls need not be identical. -/
theorem C4_group_order_nondeterministic :
    validKeyOrder detDB [detKeyA, detKeyB] ∧ validKeyOrder detDB [detKeyB, detKeyA] ∧
    GetLatestResultsWith detDB 0 [detKeyA, detKeyB] ≠
      GetLatestResultsWith detDB 0 [detKeyB, detKeyA] := by
  have hkeys : groupMapKeys (collectionResultsOf detDB) = [detKeyA, detKeyB] := by decide
  refine ⟨?_, ?_, by decide⟩
  · unfold validKeyOrder
    rw [hkeys]
  · unfold validKeyOrder
    rw [hkeys]
    exact List.Perm.swap detKeyA detKeyB []

/-! ## Claim C8 -/

/-- C8: the last-success query returns a row of the collection with no
failures and at least one test carrying the greatest started_at among
the qualifying rows, returns nothing exactly when no row qualifies, and
on the E1/E2/E3 scenario of the specification selects E2 (E3 is excluded
because its total is zero). -/
theorem C8_last_success_selection (rows : List TestExecution) (cid : Nat) :
    (∀ e, GetLastSuccessfulExecution rows cid = some e →
      e ∈ rows ∧ e.collectionId = cid ∧ e.failedTests = 0 ∧ e.totalTests > 0 ∧
      ∀ b ∈ rows, b.collectionId = cid → b.failedTests = 0 → b.totalTests > 0 →
        b.startedAt ≤ e.startedAt) ∧
    (GetLastSuccessfulExecution rows cid = none ↔
      ∀ b ∈ rows, ¬(b.collectionId = cid ∧ b.failedTests = 0 ∧ b.totalTests > 0)) ∧
    GetLastSuccessfulExecution [lsExec1, lsExec2, lsExec3] 3 = some lsExec2 := by
  refine ⟨?_, ?_, by decide⟩
  · intro e he
    unfold GetLastSuccessfulExecution at he
    obtain ⟨hmem, hmax⟩ := pickLatest_some _ _ he
    rw [List.mem_filter] at hmem
    obtain ⟨hrow, hq⟩ := hmem
    simp only [Bool.and_eq_true, beq_iff_eq, decide_eq_true_eq] at hq
    refine ⟨hrow, hq.1.1, hq.1.2, hq.2, ?_⟩
    intro b hb hbc hbf hbt
    refine hmax b ?_
    rw [List.mem_filter]
    refine ⟨hb, ?_⟩
    simp only [Bool.and_eq_true, beq_iff_eq, decide_eq_true_eq]
    exact ⟨⟨hbc, hbf⟩, hbt⟩
  · unfold GetLastSuccessfulExecution
    rw [pickLatest_eq_none, List.filter_eq_nil_iff]
    constructor
    · intro h b hb hq
      refine h b hb ?_
      simp only [Bool.and_eq_true, beq_iff_eq, decide_eq_true_eq]
      exact ⟨⟨hq.1, hq.2.1⟩, hq.2.2⟩
    · intro h b hb hq
      simp only [Bool.and_eq_true, beq_iff_eq, decide_eq_true_eq] at hq
      exact h b hb ⟨hq.1.1, hq.1.2, hq.2⟩

/-- C8, witness: the theorem applied to the specification's scenario. -/
theorem C8_last_success_witness :
    lsExec2 ∈ [lsExec1, lsExec2, lsExec3] ∧ lsExec2.failedTests = 0 ∧
      lsExec2.totalTests > 0 := by
  have h := (C8_last_success_selection [lsExec1, lsExec2, lsExec3] 3).1 lsExec2 (by decide)
  exact ⟨h.1, h.2.2.1, h.2.2.2.1⟩

/-! ## Claim C1 -/

theorem handlerResultFor_eq (stored : List CollectionResult) (g : CollectionGroup)
    (c : CollectionFile) :
    handlerResultFor stored g c =
      match lookupByCompositeKey stored (readKey g c).key with
      | some result => result
      | none =>
        { collection :=
            { id := 0
              name := c.name
              filePath := c.fullPath
              compositeKey := (readKey g c).key
              directoryName := (readKey g c).dir
              environmentName := (readKey g c).env
              collectionName := (readKey g c).col }
          execution := none
          lastSuccessExecution := none
          results := [] } := rfl

theorem mem_resultsForKey_handleResults (groups : List CollectionGroup) (db : DB)
    (now : Int) (k : String) (cr : CollectionResult)
    (h : cr ∈ resultsForKey (handleResults groups db now) k) :
    cr.collection.compositeKey = k ∧
    (∀ r, lookupByCompositeKey (allCollectionResults (GetLatestResults db now)) k = some r →
      cr = r) ∧
    (lookupByCompositeKey (allCollectionResults (GetLatestResults db now)) k = none →
      cr.execution = none ∧ cr.lastSuccessExecution = none ∧ cr.results = []) := by
  unfold resultsForKey at h
  rw [List.mem_filter] at h
  obtain ⟨hmem, hkeyb⟩ := h
  have hkey : cr.collection.compositeKey = k := by simpa using hkeyb
  rw [allCollectionResults_handleResults, List.mem_flatMap] at hmem
  obtain ⟨g, hg, hcr2⟩ := hmem
  rw [List.mem_map] at hcr2
  obtain ⟨c, hc, hcrc⟩ := hcr2
  have hrk : (readKey g c).key = k := by
    rw [← hkey, ← hcrc, handlerResultFor_key]
  refine ⟨hkey, ?_, ?_⟩
  · intro r hr
    rw [← hcrc, handlerResultFor_eq, hrk, hr]
  · intro hnone
    rw [← hcrc, handlerResultFor_eq, hrk, hnone]
    exact ⟨rfl, rfl, rfl⟩

/-- C1, amended: the /api/results merge yields exactly one
CollectionResult per composite key VISIBLE IN THE CURRENT SCAN (given the
scanned keys are pairwise distinct): with a present execution when the
key has persisted history, and as an execution-less placeholder with an
empty result list otherwise; a key with persisted history that the scan
does not see yields NO CollectionResult at all, contrary to the original
claim (see the counterexample). -/
theorem C1_latest_results_per_scanned_key (groups : List CollectionGroup) (db : DB)
    (now : Int) (k : String) (hnodup : (scannedKeys groups).Nodup) (hwf : DBWf db) :
    (k ∈ scannedKeys groups →
      (resultsForKey (handleResults groups db now) k).length = 1 ∧
      ∀ cr ∈ resultsForKey (handleResults groups db now) k,
        (hasHistory db k → cr.execution.isSome) ∧
        (¬ hasHistory db k → cr.execution = none ∧ cr.results = [])) ∧
    (k ∉ scannedKeys groups → resultsForKey (handleResults groups db now) k = []) := by
  constructor
  · intro hk
    refine ⟨?_, ?_⟩
    · rw [resultsForKey_handleResults_length]
      exact List.count_eq_one_of_mem hnodup hk
    · intro cr hcr
      obtain ⟨hkey, hsome, hnone⟩ := mem_resultsForKey_handleResults groups db now k cr hcr
      constructor
      · intro hh
        obtain ⟨r, hr⟩ := (storage_lookup_isSome_iff db now hwf k).mpr hh
        rw [hsome r hr]
        have hrmem := (lookup_some _ _ _ hr).1
        unfold GetLatestResults at hrmem
        rw [mem_allCollectionResults_GetLatestResultsWith db now _
          (canonical_validKeyOrder db)] at hrmem
        exact collectionResultsOf_execution_isSome db r hrmem
      · intro hh
        cases hl : lookupByCompositeKey (allCollectionResults (GetLatestResults db now)) k with
        | some r => exact absurd ((storage_lookup_isSome_iff db now hwf k).mp ⟨r, hl⟩) hh
        | none =>
          obtain ⟨h1, _, h3⟩ := hnone hl
          exact ⟨h1, h3⟩
  · intro hk
    have h := resultsForKey_handleResults_length groups db now k
    rw [List.count_eq_zero.mpr hk] at h
    exact List.length_eq_zero.mp h

/-- C1, counterexample: a key with persisted execution history that the
current scan does not see (here after the collection directory was
removed) yields NO CollectionResult from the /api/results merge, while
the claim demands exactly one for every key with persisted history. -/
theorem C1_history_only_key_dropped :
    hasHistory cexDB "billing_env_checkout" ∧
    resultsForKey (handleResults [] cexDB 0) "billing_env_checkout" = [] := by
  exact ⟨by decide, by decide⟩

/-- C1, witness: the amended theorem at a concrete scan of one group
whose key has no history: exactly one placeholder is produced. -/
theorem C1_latest_results_witness :
    "billing_production_checkout" ∈ scannedKeys [cexGroup] ∧
    (resultsForKey (handleResults [cexGroup] cexDB 0) "billing_production_checkout").length
      = 1 := by
  have hwf : DBWf cexDB := ⟨by decide, by decide, by decide⟩
  have h := (C1_latest_results_per_scanned_key [cexGroup] cexDB 0
    "billing_production_checkout" (by decide) hwf).1 (by decide)
  exact ⟨by decide, h.1⟩

/-! ## Claim C9 -/

theorem foldl_step_preserves_executions (step : DB → TestInfo → DB)
    (hstep : ∀ d t, (step d t).executions = d.executions) (l : List TestInfo) :
    ∀ d, (l.foldl step d).executions = d.executions := by
  induction l with
  | nil => intro d; rfl
  | cons t ts ih =>
    intro d
    rw [List.foldl_cons, ih (step d t), hstep]

theorem mem_executions_foldl (step : DB → TestInfo → DB)
    (hstep : ∀ d t, (step d t).executions = d.executions) (l : List TestInfo) (d : DB)
    (e : TestExecution) (he : e ∈ d.executions) : e ∈ (l.foldl step d).executions := by
  rw [foldl_step_preserves_executions step hstep l d]
  exact he

/-- C9: when the executor yields no parseable result the unit fails
without touching the store; when it yields a parseable result — also on a
failed run — the unit persists a TestExecution whose error field is the
result's top-level error, so partial runner failures are stored rather
than discarded. -/
theorem C9_partial_result_persisted (db : DB) (col : CollectionFile) (dir : String)
    (env : Option String) (r : NewmanResult) (runFailed : Bool)
    (parseTime : String → Option Int) (startTime : Int) :
    executeCollection db col dir env none runFailed parseTime startTime =
      (db, UnitOutcome.failedRun) ∧
    ∃ c exec,
      (executeCollection db col dir env (some r) runFailed parseTime startTime).2 =
        UnitOutcome.persisted c exec ∧
      exec.error = r.error ∧
      exec ∈ (executeCollection db col dir env (some r) runFailed parseTime startTime).1.executions := by
  constructor
  · rfl
  · have hex : (Execute (some r) runFailed).1 = some r := by
      simp only [Execute]
      split <;> rfl
    simp only [executeCollection, hex]
    refine ⟨_, _, rfl, rfl, ?_⟩
    refine mem_executions_foldl _ ?_ _ _ _ ?_
    · intro d t
      rfl
    · exact List.mem_append_right _ (List.mem_singleton_self _)

/-! ## Claim C10 -/

/-- C10: Start performs one full synchronous cycle before the ticker
goroutine is created: the trace begins with the non-timer cycle, the
ticker starts only after it, that first cycle dispatched one unit for
every discovered (group, collection) pair, and the first timer-triggered
cycle begins one full interval after startup. -/
theorem C10_start_runs_cycle_before_ticker
    (scanAt : Nat → Except String (List CollectionGroup)) (hasMU : Bool)
    (startTime interval : Int) (ticks : Nat) (groups : List CollectionGroup)
    (hscan : scanAt 0 = Except.ok groups) :
    Start scanAt hasMU startTime interval ticks =
      SchedulerEvent.cycle false (runOnce (Except.ok groups) hasMU) startTime ::
        SchedulerEvent.tickerStarted startTime ::
        (List.range ticks).map (fun k =>
          SchedulerEvent.cycle true (runOnce (scanAt (k + 1)) hasMU)
            (startTime + (k + 1) * interval)) ∧
    (∀ g ∈ groups, ∀ c ∈ g.collections,
      (g, c) ∈ (runOnce (Except.ok groups) hasMU).dispatchedPairs) ∧
    (1 ≤ ticks →
      (Start scanAt hasMU startTime interval ticks)[2]? =
        some (SchedulerEvent.cycle true (runOnce (scanAt 1) hasMU)
          (startTime + interval))) := by
  have hstart : Start scanAt hasMU startTime interval ticks =
      SchedulerEvent.cycle false (runOnce (Except.ok groups) hasMU) startTime ::
        SchedulerEvent.tickerStarted startTime ::
        (List.range ticks).map (fun k =>
          SchedulerEvent.cycle true (runOnce (scanAt (k + 1)) hasMU)
            (startTime + (k + 1) * interval)) := by
    unfold Start
    rw [hscan]
    rfl
  refine ⟨hstart, ?_, ?_⟩
  · intro g hg c hc
    unfold runOnce
    by_cases hgroups : groups = []
    · subst hgroups
      cases hg
    · simp only [if_neg hgroups]
      rw [List.mem_flatMap]
      exact ⟨g, hg, List.mem_map_of_mem _ hc⟩
  · intro ht
    rw [hstart]
    cases ticks with
    | zero => omega
    | succ n =>
      rw [List.range_succ_eq_map]
      simp

/-- C10, witness: the theorem on a constant one-group scan with a
60-unit interval and one observed tick. -/
theorem C10_start_witness :
    (Start (fun _ => Except.ok [cexGroup]) true 0 60 1)[2]? =
      some (SchedulerEvent.cycle true (runOnce (Except.ok [cexGroup]) true) (0 + 60)) := by
  have h := C10_start_runs_cycle_before_ticker (fun _ => Except.ok [cexGroup]) true 0 60 1
    [cexGroup] rfl
  exact h.2.2 (by omega)

end Scout
